import Mathlib

/-!
# Verification of the classic-wallpaper core image pipeline

A shallow embedding, in Lean 4, of the core image operations of the
`classic-wallpaper` Rust repository (`src/rust/src/imageop.rs`,
`src/rust/src/randomwp.rs`, `src/rust/src/main.rs`), together with
theorems settling the specification claims about them.

Modelling conventions:
* Rust `f64` arithmetic is modelled over `ℚ`.  All quantities the claims
  touch are produced by piecewise rational-linear formulas on small
  values, which `f64` represents exactly except for rounding that the
  claims do not depend on; floors, truncations, casts and comparisons are
  modelled exactly.
* Rust `u8` is `Fin 256`; `u32`/`usize` indices are `ℕ`; `i32` is `ℤ`
  (the error-diffusion accumulators and rectangle coordinates stay far
  from the `i32` range boundaries in every use modelled here).
* The `BasicRgbImage` trait contract (width, height, get/put pixel) is
  an abstract pixel store: a structure with a pixel function, where
  `put` is a pointwise update.
-/

namespace ClassicWallpaper

/-- Rust `u8`. -/
abbrev Byte := Fin 256

/-- A pixel `[u8; 3]`: red, green, blue. -/
abbrev Pixel := Byte × Byte × Byte

/-- The `BasicRgbImage` contract: a width, a height, and a pixel store. -/
structure Image where
  width : ℕ
  height : ℕ
  pix : ℕ → ℕ → Pixel

/-- `put_pixel`: pointwise update of the pixel store. -/
def Image.put (img : Image) (x y : ℕ) (p : Pixel) : Image :=
  { img with pix := fun a b => if a = x ∧ b = y then p else img.pix a b }

@[simp] theorem Image.put_width (img : Image) (x y : ℕ) (p : Pixel) :
    (img.put x y p).width = img.width := rfl

@[simp] theorem Image.put_height (img : Image) (x y : ℕ) (p : Pixel) :
    (img.put x y p).height = img.height := rfl

theorem Image.put_pix_ne (img : Image) (x y : ℕ) (p : Pixel) {a b : ℕ}
    (h : ¬(a = x ∧ b = y)) : (img.put x y p).pix a b = img.pix a b := by
  simp [Image.put, h]

theorem Image.put_pix_self (img : Image) (x y : ℕ) (p : Pixel) :
    (img.put x y p).pix x y = p := by
  simp [Image.put]

/-! ## Wallpaper-group remapper functions (`imageop.rs`, lines 332–605)

Each function maps a normalized destination coordinate `(x, y) ∈ [0,1]²`
to a normalized source coordinate.  `f64` is modelled as `ℚ`. -/

/-- `pmm` (`imageop.rs` line 332): reflect each quadrant of the unit
square into the upper-left quadrant, then double. -/
def pmm (x y : ℚ) : ℚ × ℚ :=
  if x > 1/2 then
    if y < 1/2 then ((1/2 - (x - 1/2)) * 2, y * 2)
    else ((1/2 - (x - 1/2)) * 2, (1/2 - (y - 1/2)) * 2)
  else if y < 1/2 then (x * 2, y * 2)
  else (x * 2, (1/2 - (y - 1/2)) * 2)

/-- `p4m` (`imageop.rs` line 353): apply `pmm`, then swap the pair when
`rx + (1 - ry) > 1`. -/
def p4m (x y : ℚ) : ℚ × ℚ :=
  let r := pmm x y
  if r.1 + (1 - r.2) > 1 then (r.2, r.1) else (r.1, r.2)

/-- `p4malt` (`imageop.rs` line 369): apply `pmm`, then swap the pair
when `ry + (1 - rx) < 1`. -/
def p4malt (x y : ℚ) : ℚ × ℚ :=
  let r := pmm x y
  if r.2 + (1 - r.1) < 1 then (r.2, r.1) else (r.1, r.2)

/-- `p4malt` as defined by the standalone binary (`main.rs` line 372):
apply `pmm`, then swap the pair when `rx + (1 - ry) < 1`. -/
def mainP4malt (x y : ℚ) : ℚ × ℚ :=
  let r := pmm x y
  if r.1 + (1 - r.2) < 1 then (r.2, r.1) else (r.1, r.2)

/-- Rust `f64::clamp(lo, hi)`: below `lo` gives `lo`, above `hi` gives
`hi`, otherwise the value itself. -/
def rclamp (v lo hi : ℚ) : ℚ :=
  if v < lo then lo else if v > hi then hi else v

/-- The first affine remap of `p3m1` with its clamps
(`imageop.rs` lines 410–414 and the identical blocks that follow). -/
def p3m1aff1 (xp yp : ℚ) : ℚ × ℚ :=
  (rclamp (-xp / 2 - 3 * yp / 4 + 1) 0 1, rclamp (-xp + yp / 2 + 1) 0 1)

/-- The second affine remap of `p3m1` with its clamps
(`imageop.rs` lines 446–450 and the identical blocks that follow). -/
def p3m1aff2 (xp yp : ℚ) : ℚ × ℚ :=
  (rclamp (-xp / 2 + 3 * yp / 4 + 1/2) 0 1, rclamp (xp + yp / 2) 0 1)

/-- The arm bodies of the 24-way `match` of `p3m1`
(`imageop.rs` lines 403–481), numbered in source order. -/
def p3m1arm (xpos ypos : ℚ) (arm : ℕ) : ℚ × ℚ :=
  match arm with
  | 0 => (xpos / 2, ypos)
  | 1 => (xpos / 2 + 1/2, ypos)
  | 2 => (xpos / 2, 1 - ypos)
  | 3 => (xpos / 2 + 1/2, 1 - ypos)
  | 4 => p3m1aff1 (xpos / 2) ypos
  | 5 => p3m1aff1 (xpos / 2 + 1/2) ypos
  | 6 => p3m1aff1 (xpos / 2) (1 - ypos)
  | 7 => p3m1aff1 (xpos / 2 + 1/2) (1 - ypos)
  | 8 => p3m1aff2 (xpos / 2) ypos
  | 9 => p3m1aff2 (xpos / 2 + 1/2) ypos
  | 10 => p3m1aff2 (xpos / 2) (1 - ypos)
  | 11 => p3m1aff2 (xpos / 2 + 1/2) (1 - ypos)
  | _ => (0, 0)

/-- The pattern dispatch of the 24-way `match` of `p3m1`
(`imageop.rs` lines 403–481): which arm a given
`(xarea, yarea, left_half)` triple selects, with arm 12 standing for
the fall-through `_ => (0.0, 0.0)` case. -/
def p3m1dispatch (xarea yarea : ℤ) (left_half : Bool) : ℕ :=
  if (xarea, yarea, left_half) = (1, 1, false) ∨ (xarea, yarea, left_half) = (4, 0, false) then 0
  else if (xarea, yarea, left_half) = (2, 1, true) ∨ (xarea, yarea, left_half) = (5, 0, true) then 1
  else if (xarea, yarea, left_half) = (1, 0, false) ∨ (xarea, yarea, left_half) = (4, 1, false) then 2
  else if (xarea, yarea, left_half) = (2, 0, true) ∨ (xarea, yarea, left_half) = (5, 1, true) then 3
  else if (xarea, yarea, left_half) = (0, 1, false) ∨ (xarea, yarea, left_half) = (3, 0, false) then 4
  else if (xarea, yarea, left_half) = (1, 1, true) ∨ (xarea, yarea, left_half) = (4, 0, true) then 5
  else if (xarea, yarea, left_half) = (0, 0, false) ∨ (xarea, yarea, left_half) = (3, 1, false) then 6
  else if (xarea, yarea, left_half) = (1, 0, true) ∨ (xarea, yarea, left_half) = (4, 1, true) then 7
  else if (xarea, yarea, left_half) = (2, 1, false) ∨ (xarea, yarea, left_half) = (5, 0, false) then 8
  else if (xarea, yarea, left_half) = (3, 1, true) ∨ (xarea, yarea, left_half) = (0, 0, true) then 9
  else if (xarea, yarea, left_half) = (2, 0, false) ∨ (xarea, yarea, left_half) = (5, 1, false) then 10
  else if (xarea, yarea, left_half) = (3, 0, true) ∨ (xarea, yarea, left_half) = (0, 1, true) then 11
  else 12

/-- The 24-way case dispatch of `p3m1` (`imageop.rs` lines 403–481),
parameterized over the already-computed cell data: select an arm from
the triple, then evaluate its body. -/
def p3m1core (xpos ypos : ℚ) (xarea yarea : ℤ) (left_half : Bool) : ℚ × ℚ :=
  p3m1arm xpos ypos (p3m1dispatch xarea yarea left_half)

/-- `p3m1` (`imageop.rs` line 391): split the unit square into six
horizontal sixths and two vertical halves, pick a diagonal half, and
dispatch through `p3m1core`. -/
def p3m1 (x y : ℚ) : ℚ × ℚ :=
  let xx := x * 6
  let xarea : ℤ := min 5 ⌊xx⌋
  let xpos : ℚ := xx - (xarea : ℚ)
  let yarea : ℤ := if y < 1/2 then 0 else 1
  let ypos : ℚ := if y < 1/2 then y * 2 else (y - 1/2) * 2
  let left_half : Bool :=
    if (xarea + yarea) % 2 = 0 then decide (xpos + ypos < 1)
    else decide (xpos + (1 - ypos) < 1)
  p3m1core xpos ypos xarea yarea left_half

/-- `p6m` (`imageop.rs` line 489): `p3m1` folded across the vertical
midline, keeping the left half. -/
def p6m (x y : ℚ) : ℚ × ℚ :=
  let r := p3m1 x y
  if r.1 > 1/2 then (1 - r.1, r.2) else (r.1, r.2)

/-- `p6malt` (`imageop.rs` line 504): `p3m1` folded across the vertical
midline, keeping the right half. -/
def p6malt (x y : ℚ) : ℚ × ℚ :=
  let r := p3m1 x y
  if r.1 < 1/2 then (1 - r.1, r.2) else (r.1, r.2)

/-- `p3m1alt1` (`imageop.rs` line 526): a 90°-rotated reparameterization
of `p3m1`. -/
def p3m1alt1 (x y : ℚ) : ℚ × ℚ :=
  let r := p3m1 y (1 - x)
  (1 - r.2, r.1)

/-- `p3m1alt2` (`imageop.rs` line 544): a reflected reparameterization
of `p3m1`. -/
def p3m1alt2 (x y : ℚ) : ℚ × ℚ :=
  let r := p3m1 y x
  (r.2, r.1)

/-- `p6malt1a` (`imageop.rs` line 555): `p3m1alt1` folded across the
horizontal midline, keeping the upper half. -/
def p6malt1a (x y : ℚ) : ℚ × ℚ :=
  let r := p3m1alt1 x y
  if r.2 > 1/2 then (r.1, 1 - r.2) else (r.1, r.2)

/-- `p6malt1b` (`imageop.rs` line 569): `p3m1alt1` folded across the
horizontal midline, keeping the lower half. -/
def p6malt1b (x y : ℚ) : ℚ × ℚ :=
  let r := p3m1alt1 x y
  if r.2 < 1/2 then (r.1, 1 - r.2) else (r.1, r.2)

/-- `p6malt2a` (`imageop.rs` line 584): `p3m1alt2` folded across the
horizontal midline, keeping the upper half. -/
def p6malt2a (x y : ℚ) : ℚ × ℚ :=
  let r := p3m1alt2 x y
  if r.2 > 1/2 then (r.1, 1 - r.2) else (r.1, r.2)

/-- `p6malt2b` (`imageop.rs` line 598): `p3m1alt2` folded across the
horizontal midline, keeping the lower half. -/
def p6malt2b (x y : ℚ) : ℚ × ℚ :=
  let r := p3m1alt2 x y
  if r.2 < 1/2 then (r.1, 1 - r.2) else (r.1, r.2)

/-- Membership in the closed unit square. -/
def inUnit (p : ℚ × ℚ) : Prop :=
  0 ≤ p.1 ∧ p.1 ≤ 1 ∧ 0 ≤ p.2 ∧ p.2 ≤ 1

instance (p : ℚ × ℚ) : Decidable (inUnit p) := by
  unfold inUnit; infer_instance

/-! ### Range lemmas for the remappers -/

theorem rclamp_mem {lo hi : ℚ} (v : ℚ) (h : lo ≤ hi) :
    lo ≤ rclamp v lo hi ∧ rclamp v lo hi ≤ hi := by
  unfold rclamp
  split_ifs <;> constructor <;> linarith

theorem inUnit_mk {a b : ℚ} (h1 : 0 ≤ a) (h2 : a ≤ 1) (h3 : 0 ≤ b)
    (h4 : b ≤ 1) : inUnit (a, b) :=
  ⟨h1, h2, h3, h4⟩

theorem p3m1aff1_inUnit (xp yp : ℚ) : inUnit (p3m1aff1 xp yp) := by
  have h1 := rclamp_mem (-xp / 2 - 3 * yp / 4 + 1) (show (0:ℚ) ≤ 1 by norm_num)
  have h2 := rclamp_mem (-xp + yp / 2 + 1) (show (0:ℚ) ≤ 1 by norm_num)
  exact inUnit_mk h1.1 h1.2 h2.1 h2.2

theorem p3m1aff2_inUnit (xp yp : ℚ) : inUnit (p3m1aff2 xp yp) := by
  have h1 := rclamp_mem (-xp / 2 + 3 * yp / 4 + 1/2) (show (0:ℚ) ≤ 1 by norm_num)
  have h2 := rclamp_mem (xp + yp / 2) (show (0:ℚ) ≤ 1 by norm_num)
  exact inUnit_mk h1.1 h1.2 h2.1 h2.2

theorem p3m1arm_inUnit {xpos ypos : ℚ} (arm : ℕ)
    (hx0 : 0 ≤ xpos) (hx1 : xpos ≤ 1) (hy0 : 0 ≤ ypos) (hy1 : ypos ≤ 1) :
    inUnit (p3m1arm xpos ypos arm) := by
  match arm with
  | 0 => exact inUnit_mk (by linarith) (by linarith) (by linarith) (by linarith)
  | 1 => exact inUnit_mk (by linarith) (by linarith) (by linarith) (by linarith)
  | 2 => exact inUnit_mk (by linarith) (by linarith) (by linarith) (by linarith)
  | 3 => exact inUnit_mk (by linarith) (by linarith) (by linarith) (by linarith)
  | 4 => exact p3m1aff1_inUnit _ _
  | 5 => exact p3m1aff1_inUnit _ _
  | 6 => exact p3m1aff1_inUnit _ _
  | 7 => exact p3m1aff1_inUnit _ _
  | 8 => exact p3m1aff2_inUnit _ _
  | 9 => exact p3m1aff2_inUnit _ _
  | 10 => exact p3m1aff2_inUnit _ _
  | 11 => exact p3m1aff2_inUnit _ _
  | (n + 12) => exact inUnit_mk le_rfl zero_le_one le_rfl zero_le_one

theorem p3m1core_inUnit {xpos ypos : ℚ} (xarea yarea : ℤ) (left_half : Bool)
    (hx0 : 0 ≤ xpos) (hx1 : xpos ≤ 1) (hy0 : 0 ≤ ypos) (hy1 : ypos ≤ 1) :
    inUnit (p3m1core xpos ypos xarea yarea left_half) :=
  p3m1arm_inUnit _ hx0 hx1 hy0 hy1

theorem pmm_inUnit {x y : ℚ} (hx0 : 0 ≤ x) (hx1 : x ≤ 1) (hy0 : 0 ≤ y)
    (hy1 : y ≤ 1) : inUnit (pmm x y) := by
  unfold pmm
  split_ifs <;>
    exact inUnit_mk (by linarith) (by linarith) (by linarith) (by linarith)

theorem xpos_nonneg (x : ℚ) : 0 ≤ x * 6 - ((min 5 ⌊x * 6⌋ : ℤ) : ℚ) := by
  have h1 : ((min 5 ⌊x * 6⌋ : ℤ) : ℚ) ≤ ((⌊x * 6⌋ : ℤ) : ℚ) := by
    exact_mod_cast min_le_right 5 ⌊x * 6⌋
  have h2 : ((⌊x * 6⌋ : ℤ) : ℚ) ≤ x * 6 := Int.floor_le _
  linarith

theorem xpos_le_one {x : ℚ} (hx1 : x ≤ 1) :
    x * 6 - ((min 5 ⌊x * 6⌋ : ℤ) : ℚ) ≤ 1 := by
  rcases le_or_lt ⌊x * 6⌋ 5 with h | h
  · rw [min_eq_right h]
    have := Int.lt_floor_add_one (x * 6)
    linarith
  · rw [min_eq_left h.le]
    push_cast
    linarith

theorem p3m1_inUnit {x y : ℚ} (hx0 : 0 ≤ x) (hx1 : x ≤ 1) (hy0 : 0 ≤ y)
    (hy1 : y ≤ 1) : inUnit (p3m1 x y) := by
  unfold p3m1
  dsimp only
  exact p3m1core_inUnit _ _ _ (xpos_nonneg x) (xpos_le_one hx1)
    (by split_ifs <;> linarith) (by split_ifs <;> linarith)

theorem inUnit_swap {p : ℚ × ℚ} (h : inUnit p) : inUnit (p.2, p.1) :=
  ⟨h.2.2.1, h.2.2.2, h.1, h.2.1⟩

theorem p4m_inUnit {x y : ℚ} (hx0 : 0 ≤ x) (hx1 : x ≤ 1) (hy0 : 0 ≤ y)
    (hy1 : y ≤ 1) : inUnit (p4m x y) := by
  have h := pmm_inUnit hx0 hx1 hy0 hy1
  unfold p4m
  dsimp only
  split_ifs
  · exact inUnit_swap h
  · exact h

theorem p4malt_inUnit {x y : ℚ} (hx0 : 0 ≤ x) (hx1 : x ≤ 1) (hy0 : 0 ≤ y)
    (hy1 : y ≤ 1) : inUnit (p4malt x y) := by
  have h := pmm_inUnit hx0 hx1 hy0 hy1
  unfold p4malt
  dsimp only
  split_ifs
  · exact inUnit_swap h
  · exact h

theorem p6m_inUnit {x y : ℚ} (hx0 : 0 ≤ x) (hx1 : x ≤ 1) (hy0 : 0 ≤ y)
    (hy1 : y ≤ 1) : inUnit (p6m x y) := by
  obtain ⟨h1, h2, h3, h4⟩ := p3m1_inUnit hx0 hx1 hy0 hy1
  unfold p6m
  dsimp only
  split_ifs with hgt
  · exact inUnit_mk (by linarith) (by linarith) h3 h4
  · exact inUnit_mk h1 h2 h3 h4

theorem p6malt_inUnit {x y : ℚ} (hx0 : 0 ≤ x) (hx1 : x ≤ 1) (hy0 : 0 ≤ y)
    (hy1 : y ≤ 1) : inUnit (p6malt x y) := by
  obtain ⟨h1, h2, h3, h4⟩ := p3m1_inUnit hx0 hx1 hy0 hy1
  unfold p6malt
  dsimp only
  split_ifs with hlt
  · exact inUnit_mk (by linarith) (by linarith) h3 h4
  · exact inUnit_mk h1 h2 h3 h4

theorem p3m1alt1_inUnit {x y : ℚ} (hx0 : 0 ≤ x) (hx1 : x ≤ 1) (hy0 : 0 ≤ y)
    (hy1 : y ≤ 1) : inUnit (p3m1alt1 x y) := by
  obtain ⟨h1, h2, h3, h4⟩ :=
    p3m1_inUnit hy0 hy1 (by linarith : (0:ℚ) ≤ 1 - x) (by linarith)
  unfold p3m1alt1
  dsimp only
  exact inUnit_mk (by linarith) (by linarith) h1 h2

theorem p3m1alt2_inUnit {x y : ℚ} (hx0 : 0 ≤ x) (hx1 : x ≤ 1) (hy0 : 0 ≤ y)
    (hy1 : y ≤ 1) : inUnit (p3m1alt2 x y) := by
  obtain ⟨h1, h2, h3, h4⟩ := p3m1_inUnit hy0 hy1 hx0 hx1
  unfold p3m1alt2
  dsimp only
  exact inUnit_mk h3 h4 h1 h2

theorem p6malt1a_inUnit {x y : ℚ} (hx0 : 0 ≤ x) (hx1 : x ≤ 1) (hy0 : 0 ≤ y)
    (hy1 : y ≤ 1) : inUnit (p6malt1a x y) := by
  obtain ⟨h1, h2, h3, h4⟩ := p3m1alt1_inUnit hx0 hx1 hy0 hy1
  unfold p6malt1a
  dsimp only
  split_ifs
  · exact inUnit_mk h1 h2 (by linarith) (by linarith)
  · exact inUnit_mk h1 h2 h3 h4

theorem p6malt1b_inUnit {x y : ℚ} (hx0 : 0 ≤ x) (hx1 : x ≤ 1) (hy0 : 0 ≤ y)
    (hy1 : y ≤ 1) : inUnit (p6malt1b x y) := by
  obtain ⟨h1, h2, h3, h4⟩ := p3m1alt1_inUnit hx0 hx1 hy0 hy1
  unfold p6malt1b
  dsimp only
  split_ifs
  · exact inUnit_mk h1 h2 (by linarith) (by linarith)
  · exact inUnit_mk h1 h2 h3 h4

theorem p6malt2a_inUnit {x y : ℚ} (hx0 : 0 ≤ x) (hx1 : x ≤ 1) (hy0 : 0 ≤ y)
    (hy1 : y ≤ 1) : inUnit (p6malt2a x y) := by
  obtain ⟨h1, h2, h3, h4⟩ := p3m1alt2_inUnit hx0 hx1 hy0 hy1
  unfold p6malt2a
  dsimp only
  split_ifs
  · exact inUnit_mk h1 h2 (by linarith) (by linarith)
  · exact inUnit_mk h1 h2 h3 h4

theorem p6malt2b_inUnit {x y : ℚ} (hx0 : 0 ≤ x) (hx1 : x ≤ 1) (hy0 : 0 ≤ y)
    (hy1 : y ≤ 1) : inUnit (p6malt2b x y) := by
  obtain ⟨h1, h2, h3, h4⟩ := p3m1alt2_inUnit hx0 hx1 hy0 hy1
  unfold p6malt2b
  dsimp only
  split_ifs
  · exact inUnit_mk h1 h2 (by linarith) (by linarith)
  · exact inUnit_mk h1 h2 h3 h4

/-! ### Claim theorems about the remappers -/

/-- C2: for each of the twelve remapper functions and every input
`(x, y)` with `0 ≤ x ≤ 1` and `0 ≤ y ≤ 1`, both components of the
returned pair lie in `[0, 1]`. -/
theorem remapper_outputs_in_unit_square (x y : ℚ) (hx0 : 0 ≤ x)
    (hx1 : x ≤ 1) (hy0 : 0 ≤ y) (hy1 : y ≤ 1) :
    inUnit (pmm x y) ∧ inUnit (p4m x y) ∧ inUnit (p4malt x y) ∧
    inUnit (p3m1 x y) ∧ inUnit (p3m1alt1 x y) ∧ inUnit (p3m1alt2 x y) ∧
    inUnit (p6m x y) ∧ inUnit (p6malt x y) ∧ inUnit (p6malt1a x y) ∧
    inUnit (p6malt1b x y) ∧ inUnit (p6malt2a x y) ∧ inUnit (p6malt2b x y) :=
  ⟨pmm_inUnit hx0 hx1 hy0 hy1, p4m_inUnit hx0 hx1 hy0 hy1,
    p4malt_inUnit hx0 hx1 hy0 hy1, p3m1_inUnit hx0 hx1 hy0 hy1,
    p3m1alt1_inUnit hx0 hx1 hy0 hy1, p3m1alt2_inUnit hx0 hx1 hy0 hy1,
    p6m_inUnit hx0 hx1 hy0 hy1, p6malt_inUnit hx0 hx1 hy0 hy1,
    p6malt1a_inUnit hx0 hx1 hy0 hy1, p6malt1b_inUnit hx0 hx1 hy0 hy1,
    p6malt2a_inUnit hx0 hx1 hy0 hy1, p6malt2b_inUnit hx0 hx1 hy0 hy1⟩

/-- Witness for C2: the twelve range facts at the concrete point
`(1/3, 2/3)`. -/
theorem remapper_outputs_in_unit_square_witness :
    inUnit (pmm (1/3) (2/3)) ∧ inUnit (p4m (1/3) (2/3)) ∧
    inUnit (p4malt (1/3) (2/3)) ∧ inUnit (p3m1 (1/3) (2/3)) ∧
    inUnit (p3m1alt1 (1/3) (2/3)) ∧ inUnit (p3m1alt2 (1/3) (2/3)) ∧
    inUnit (p6m (1/3) (2/3)) ∧ inUnit (p6malt (1/3) (2/3)) ∧
    inUnit (p6malt1a (1/3) (2/3)) ∧ inUnit (p6malt1b (1/3) (2/3)) ∧
    inUnit (p6malt2a (1/3) (2/3)) ∧ inUnit (p6malt2b (1/3) (2/3)) :=
  remapper_outputs_in_unit_square (1/3) (2/3) (by norm_num) (by norm_num)
    (by norm_num) (by norm_num)

/-- C10: the library functions `p4m` and `p4malt` are extensionally
equal, because `p4malt`'s swap condition `ry + (1 - rx) < 1` is
equivalent to `p4m`'s swap condition `rx + (1 - ry) > 1`, while the
standalone binary's `p4malt` (with the genuinely opposite condition
`rx + (1 - ry) < 1`) differs from the library's, as it does at the
input `(1/4, 0)`. -/
theorem p4m_eq_p4malt :
    (∀ x y : ℚ, p4m x y = p4malt x y) ∧
    mainP4malt (1/4) 0 ≠ p4malt (1/4) 0 := by
  constructor
  · intro x y
    unfold p4m p4malt
    dsimp only
    split_ifs with h1 h2 <;> first | rfl | (exfalso; linarith)
  · intro h
    have h1 : mainP4malt (1/4) 0 = ((1:ℚ)/2, (0:ℚ)) := by
      norm_num [mainP4malt, pmm]
    have h2 : p4malt (1/4) 0 = ((0:ℚ), (1:ℚ)/2) := by
      norm_num [p4malt, pmm]
    rw [h1, h2] at h
    have h3 := congrArg Prod.fst h
    norm_num at h3

/-- C4 evidence: at the input `(1/4, 0)` the library `p4malt` returns
the swapped pair `(0, 1/2)` even though `pmm` gives `(rx, ry) = (1/2, 0)`
and the condition `rx + (1 - ry) < 1` is false there, so `p4malt` does
not fold across the diagonal opposite to `p4m`'s. -/
theorem p4malt_swaps_where_claim_says_not :
    p4malt (1/4) 0 = (0, 1/2) ∧ pmm (1/4) 0 = (1/2, 0) ∧
    ¬((1/2 : ℚ) + (1 - 0) < 1) := by
  refine ⟨by norm_num [p4malt, pmm], by norm_num [pmm], by norm_num⟩

/-! ## Ordered web-safe dithering (`imageop.rs`, lines 85–152) -/

/-- The fixed 8×8 Bayer ordered-dither matrix (`imageop.rs` line 85). -/
def DITHER_MATRIX : List ℕ :=
  [0, 32, 8, 40, 2, 34, 10, 42, 48, 16, 56, 24, 50, 18, 58, 26,
   12, 44, 4, 36, 14, 46, 6, 38, 60, 28, 52, 20, 62, 30, 54, 22,
   3, 35, 11, 43, 1, 33, 9, 41, 51, 19, 59, 27, 49, 17, 57, 25,
   15, 47, 7, 39, 13, 45, 5, 37, 63, 31, 55, 23, 61, 29, 53, 21]

/-- Rust `as u8` on a non-negative machine integer: truncation mod 256. -/
def byteOfNat (n : ℕ) : Byte :=
  ⟨n % 256, Nat.mod_lt n (by norm_num)⟩

/-- One channel of the web-safe quantization (`imageop.rs`
lines 129–135): round down to the nearest multiple of 51, or up to the
next one when the Bayer threshold is below `cm * 64 / 51`. -/
def wsChannel (bdither cIn : ℕ) : ℕ :=
  let cm := cIn % 51
  if bdither < cm * 64 / 51 then (cIn - cm) + 51 else cIn - cm

/-- The `continue` guard of `websafedither` (`imageop.rs`
lines 114–128): colors in the VGA palette but not in the safety
palette are left unchanged (the test also skips `{0, 0x80}³`
combinations that happen to be web-safe already, such as black). -/
def vgaSkip (rr rg rb : ℕ) : Prop :=
  (rr = 0xC0 ∧ rg = 0xC0 ∧ rb = 0xC0) ∨
  ((rr = 0x80 ∨ rr = 0) ∧ (rg = 0 ∨ rg = 0x80) ∧ (rb = 0 ∨ rb = 0x80))

instance (rr rg rb : ℕ) : Decidable (vgaSkip rr rg rb) := by
  unfold vgaSkip; infer_instance

/-- The body of `websafedither`'s per-pixel loop (`imageop.rs`
lines 110–148) at position `(x, y)`. -/
def websafeStep (include_vga : Bool) (img : Image) (x y : ℕ) : Image :=
  let rc := img.pix x y
  let rr : ℕ := rc.1.val
  let rg : ℕ := rc.2.1.val
  let rb : ℕ := rc.2.2.val
  if include_vga = true ∧ vgaSkip rr rg rb then img
  else
    let bdither := DITHER_MATRIX.getD ((y % 8) * 8 + (x % 8)) 0
    img.put x y (byteOfNat (wsChannel bdither rr),
      byteOfNat (wsChannel bdither rg), byteOfNat (wsChannel bdither rb))

/-- The row-major traversal order of the pixel loops: `y` in
`0..height` outer, `x` in `0..width` inner. -/
def scanCoords (w h : ℕ) : List (ℕ × ℕ) :=
  (List.range h).flatMap fun y => (List.range w).map fun x => (x, y)

/-- `websafedither` (`imageop.rs` line 107): quantize every pixel to
the 216-color safety palette by ordered dithering, optionally
preserving the eight extra VGA colors. -/
def websafedither (img : Image) (include_vga : Bool) : Image :=
  (scanCoords img.width img.height).foldl
    (fun im p => websafeStep include_vga im p.1 p.2) img

/-! ### Lemmas about `websafedither` -/

theorem mem_scanCoords {w h a b : ℕ} :
    (a, b) ∈ scanCoords w h ↔ a < w ∧ b < h := by
  simp only [scanCoords, List.mem_flatMap, List.mem_map, List.mem_range,
    Prod.mk.injEq]
  constructor
  · rintro ⟨y, hy, x, hx, rfl, rfl⟩
    exact ⟨hx, hy⟩
  · rintro ⟨ha, hb⟩
    exact ⟨b, hb, a, ha, rfl, rfl⟩

theorem websafeStep_pix_ne (v : Bool) (im : Image) {x y a b : ℕ}
    (h : ¬(a = x ∧ b = y)) :
    (websafeStep v im x y).pix a b = im.pix a b := by
  unfold websafeStep
  dsimp only
  split_ifs
  · rfl
  · exact Image.put_pix_ne _ _ _ _ h

theorem websafeStep_width (v : Bool) (im : Image) (x y : ℕ) :
    (websafeStep v im x y).width = im.width := by
  unfold websafeStep
  dsimp only
  split_ifs <;> rfl

/-- A channel value that is one of the six web-safe levels. -/
def webSafeLevel (n : ℕ) : Prop :=
  n = 0 ∨ n = 51 ∨ n = 102 ∨ n = 153 ∨ n = 204 ∨ n = 255

theorem wsChannel_webSafeLevel {c : ℕ} (bdither : ℕ) (hc : c ≤ 255) :
    webSafeLevel (wsChannel bdither c) := by
  unfold wsChannel webSafeLevel
  dsimp only
  split_ifs with h <;> omega

theorem webSafeLevel_le {n : ℕ} (h : webSafeLevel n) : n ≤ 255 := by
  unfold webSafeLevel at h
  omega

theorem byteOfNat_val {n : ℕ} (h : n ≤ 255) : (byteOfNat n).val = n := by
  simp only [byteOfNat]
  omega

/-- All three channels of a pixel sit on web-safe levels. -/
def goodPix (p : Pixel) : Prop :=
  webSafeLevel p.1.val ∧ webSafeLevel p.2.1.val ∧ webSafeLevel p.2.2.val

theorem websafeStep_false_good (im : Image) (x y : ℕ) :
    goodPix ((websafeStep false im x y).pix x y) := by
  unfold websafeStep
  dsimp only
  rw [if_neg (by simp)]
  rw [Image.put_pix_self]
  have h1 : (im.pix x y).1.val ≤ 255 := Nat.lt_succ_iff.mp (im.pix x y).1.isLt
  have h2 : (im.pix x y).2.1.val ≤ 255 := Nat.lt_succ_iff.mp (im.pix x y).2.1.isLt
  have h3 : (im.pix x y).2.2.val ≤ 255 := Nat.lt_succ_iff.mp (im.pix x y).2.2.isLt
  refine ⟨?_, ?_, ?_⟩ <;>
    rw [byteOfNat_val (webSafeLevel_le (wsChannel_webSafeLevel _ (by assumption)))] <;>
    exact wsChannel_webSafeLevel _ (by assumption)

theorem websafeStep_false_good_pres {im : Image} {a b : ℕ} (x y : ℕ)
    (h : goodPix (im.pix a b)) :
    goodPix ((websafeStep false im x y).pix a b) := by
  by_cases hab : a = x ∧ b = y
  · obtain ⟨rfl, rfl⟩ := hab
    exact websafeStep_false_good im a b
  · rw [websafeStep_pix_ne _ _ hab]
    exact h

theorem foldl_websafe_false_pres (L : List (ℕ × ℕ)) {im : Image} {a b : ℕ}
    (h : goodPix (im.pix a b)) :
    goodPix ((L.foldl (fun im2 p => websafeStep false im2 p.1 p.2) im).pix a b) := by
  induction L generalizing im with
  | nil => exact h
  | cons p rest ih => exact ih (websafeStep_false_good_pres _ _ h)

theorem foldl_websafe_false_establish (L : List (ℕ × ℕ)) {im : Image}
    {a b : ℕ} (hmem : (a, b) ∈ L) :
    goodPix ((L.foldl (fun im2 p => websafeStep false im2 p.1 p.2) im).pix a b) := by
  induction L generalizing im with
  | nil => cases hmem
  | cons p rest ih =>
    rcases List.mem_cons.mp hmem with heq | hmem'
    · rw [← heq]
      exact foldl_websafe_false_pres rest (websafeStep_false_good im a b)
    · exact ih hmem'

/-- The eight VGA colors singled out by the spec for `include_vga`. -/
def vga8 (p : Pixel) : Prop :=
  p = (0xC0, 0xC0, 0xC0) ∨ p = (0x80, 0, 0) ∨ p = (0, 0x80, 0) ∨
  p = (0x80, 0x80, 0) ∨ p = (0, 0, 0x80) ∨ p = (0x80, 0, 0x80) ∨
  p = (0, 0x80, 0x80) ∨ p = (0x80, 0x80, 0x80)

theorem vga8_skip {p : Pixel} (h : vga8 p) :
    vgaSkip p.1.val p.2.1.val p.2.2.val := by
  rcases h with h | h | h | h | h | h | h | h <;> subst h <;> decide

theorem websafeStep_true_pres {im : Image} {a b : ℕ} {v : Pixel}
    (x y : ℕ) (hv : vga8 v) (h : im.pix a b = v) :
    (websafeStep true im x y).pix a b = v := by
  by_cases hab : a = x ∧ b = y
  · obtain ⟨rfl, rfl⟩ := hab
    unfold websafeStep
    dsimp only
    rw [if_pos ⟨rfl, by rw [h]; exact vga8_skip hv⟩]
    exact h
  · rw [websafeStep_pix_ne _ _ hab]
    exact h

theorem foldl_websafe_true_pres (L : List (ℕ × ℕ)) {im : Image}
    {a b : ℕ} {v : Pixel} (hv : vga8 v) (h : im.pix a b = v) :
    (L.foldl (fun im2 p => websafeStep true im2 p.1 p.2) im).pix a b = v := by
  induction L generalizing im with
  | nil => exact h
  | cons p rest ih => exact ih (websafeStep_true_pres _ _ hv h)

/-! ### Claim theorems about `websafedither` -/

/-- C5: after `websafedither` with `include_vga = false`, every channel
of every pixel is one of `{0, 51, 102, 153, 204, 255}`. -/
theorem websafedither_channels_web_safe (img : Image) (x y : ℕ)
    (hx : x < img.width) (hy : y < img.height) :
    webSafeLevel (((websafedither img false).pix x y).1.val) ∧
    webSafeLevel (((websafedither img false).pix x y).2.1.val) ∧
    webSafeLevel (((websafedither img false).pix x y).2.2.val) := by
  unfold websafedither
  exact foldl_websafe_false_establish _ (mem_scanCoords.mpr ⟨hx, hy⟩)

/-- A 1×1 test image holding the single pixel `(7, 200, 99)`. -/
def imgC5 : Image := ⟨1, 1, fun _ _ => (7, 200, 99)⟩

/-- Witness for C5: the channel facts at pixel `(0, 0)` of a concrete
1×1 image. -/
theorem websafedither_channels_web_safe_witness :
    webSafeLevel (((websafedither imgC5 false).pix 0 0).1.val) ∧
    webSafeLevel (((websafedither imgC5 false).pix 0 0).2.1.val) ∧
    webSafeLevel (((websafedither imgC5 false).pix 0 0).2.2.val) :=
  websafedither_channels_web_safe imgC5 0 0 (by decide) (by decide)

/-- C6: with `include_vga = true`, a pixel whose input color is exactly
one of the eight VGA colors keeps its input color unchanged. -/
theorem websafedither_preserves_vga8 (img : Image) (x y : ℕ)
    (hx : x < img.width) (hy : y < img.height) (h : vga8 (img.pix x y)) :
    (websafedither img true).pix x y = img.pix x y := by
  unfold websafedither
  exact foldl_websafe_true_pres _ h rfl

/-- A 1×1 test image holding the single VGA pixel `(0x80, 0, 0)`. -/
def imgC6 : Image := ⟨1, 1, fun _ _ => (0x80, 0, 0)⟩

/-- Witness for C6: the maroon VGA pixel of a concrete 1×1 image is
unchanged. -/
theorem websafedither_preserves_vga8_witness :
    (websafedither imgC6 true).pix 0 0 = imgC6.pix 0 0 :=
  websafedither_preserves_vga8 imgC6 0 0 (by decide) (by decide)
    (Or.inr (Or.inl rfl))

/-! ## Bilinear sampling with wraparound (`imageop.rs`, lines 250–322) -/

/-- Truncation of a rational toward zero (the rounding used by Rust's
float remainder). -/
def ratTrunc (q : ℚ) : ℤ :=
  if q < 0 then -⌊-q⌋ else ⌊q⌋

/-- Rust `%` on `f64` operands: the remainder `a - b * trunc(a / b)`,
which keeps the sign of the dividend `a`. -/
def fmod (a b : ℚ) : ℚ :=
  a - b * (ratTrunc (a / b) : ℚ)

/-- Rust `as u32` on an (integral-valued) float: a saturating cast,
clamping negatives to `0` and large values to `u32::MAX`. -/
def u32sat (n : ℤ) : ℕ :=
  if n < 0 then 0 else min n.toNat (2 ^ 32 - 1)

/-- `_bilerp` (`imageop.rs` line 250). -/
def bilerp (y0x0 y0x1 y1x0 y1x1 tx ty : ℚ) : ℚ :=
  let y0 := y0x0 + (y0x1 - y0x0) * tx
  let y1 := y1x0 + (y1x1 - y1x0) * tx
  y0 + (y1 - y0) * ty

/-- `.floor().clamp(0.0, 255.0)` on a channel value
(`imageop.rs` lines 299–300). -/
def clampedFloor (q : ℚ) : ℤ :=
  if ⌊q⌋ < 0 then 0 else if ⌊q⌋ > 255 then 255 else ⌊q⌋

theorem clampedFloor_mem (q : ℚ) :
    0 ≤ clampedFloor q ∧ clampedFloor q ≤ 255 := by
  unfold clampedFloor
  split_ifs <;> omega

/-- `.floor().clamp(0.0, 255.0) as u8` (`imageop.rs` lines 299–300). -/
def floorClampByte (q : ℚ) : Byte :=
  ⟨(clampedFloor q).toNat, by have h := clampedFloor_mem q; omega⟩

/-- `imagept` (`imageop.rs` line 272): sample the in-between pixel at a
fractional, possibly out-of-range point by bilinear interpolation,
black on a degenerate image. -/
def imagept (image : Image) (x y : ℚ) : Pixel :=
  if image.width = 0 ∨ image.height = 0 then (0, 0, 0)
  else
    let x2 := fmod x (image.width : ℚ)
    let y2 := fmod y (image.height : ℚ)
    let xifloat : ℤ := ⌊x2⌋
    let yifloat : ℤ := ⌊y2⌋
    let xi : ℕ := u32sat xifloat
    let xi1 : ℕ := (xi + 1) % image.width
    let yi : ℕ := u32sat yifloat
    let yi1 : ℕ := (yi + 1) % image.height
    let y0x0 := image.pix xi yi
    let y0x1 := image.pix xi yi1
    let y1x0 := image.pix xi1 yi
    let y1x1 := image.pix xi1 yi1
    let tx := x2 - (xifloat : ℚ)
    let ty := y2 - (yifloat : ℚ)
    (floorClampByte (bilerp y0x0.1.val y0x1.1.val y1x0.1.val y1x1.1.val tx ty),
     floorClampByte (bilerp y0x0.2.1.val y0x1.2.1.val y1x0.2.1.val y1x1.2.1.val tx ty),
     floorClampByte (bilerp y0x0.2.2.val y0x1.2.2.val y1x0.2.2.val y1x1.2.2.val tx ty))

/-- A 3×1 test image with pixels `(0,0,0)`, `(100,100,100)`,
`(200,200,200)` at `x = 0, 1, 2`. -/
def img3 : Image :=
  ⟨3, 1, fun x _ =>
    if x = 0 then (0, 0, 0)
    else if x = 1 then (100, 100, 100) else (200, 200, 200)⟩

/-- C3 evidence: `imagept` is not periodic in `x` with period `width`.
At `x = -1/2` the float remainder stays negative and the saturating
`as u32` cast lands on column 0, giving black, while at
`x = -1/2 + 3 = 5/2` the sample interpolates at column 2, giving
`(200,200,200)`. -/
theorem imagept_not_periodic :
    imagept img3 (-(1/2)) 0 = ((0 : Byte), 0, 0) ∧
    imagept img3 (-(1/2) + 3) 0 = ((200 : Byte), 200, 200) ∧
    img3.width = 3 ∧
    imagept img3 (-(1/2)) 0 ≠ imagept img3 (-(1/2) + 3) 0 := by
  have e1 : imagept img3 (-(1/2)) 0 = ((0 : Byte), 0, 0) := by
    norm_num [imagept, img3, fmod, ratTrunc, u32sat, bilerp, clampedFloor,
      floorClampByte]
  have e2 : imagept img3 (-(1/2) + 3) 0 = ((200 : Byte), 200, 200) := by
    norm_num [imagept, img3, fmod, ratTrunc, u32sat, bilerp, clampedFloor,
      floorClampByte]
    all_goals decide
  refine ⟨e1, e2, rfl, ?_⟩
  intro heq
  rw [e1, e2] at heq
  have h1 := congrArg (fun p : Pixel => p.1) heq
  exact absurd h1 (by decide)

/-! ## Floyd–Steinberg error-diffusion dithering
(`imageop.rs`, lines 154–248)

The six per-channel error segments of the Rust `err` vector (length
`width * 6`) are modelled as one flat accumulator function `ℕ → ℤ`,
with the source's segment offsets `rerr1 = 0`, `rerr2 = w`,
`gerr1 = 2w`, `gerr2 = 3w`, `berr1 = 4w`, `berr2 = 5w` written out.
`i32` values are `ℤ`: every accumulator entry stays within a few
thousand in magnitude, far from the `i32` range. -/

/-- Squared RGB distance `dr*dr + dg*dg + db*db` of `nearestrgb3`
(`imageop.rs` lines 158–161), converted to `usize`. -/
def sqdist (r g b : ℕ) (c : Pixel) : ℕ :=
  (((r : ℤ) - c.1.val) * ((r : ℤ) - c.1.val) +
   ((g : ℤ) - c.2.1.val) * ((g : ℤ) - c.2.1.val) +
   ((b : ℤ) - c.2.2.val) * ((b : ℤ) - c.2.2.val)).toNat

/-- The search loop of `nearestrgb3` (`imageop.rs` lines 157–169):
track the best distance and index, short-circuiting on an exact
match. -/
def nearLoop (r g b : ℕ) : List Pixel → ℕ → ℕ → ℕ → ℕ
  | [], _, _, ret => ret
  | c :: rest, i, best, ret =>
    let dist := sqdist r g b c
    if i = 0 ∨ dist < best then
      if dist = 0 then i
      else nearLoop r g b rest (i + 1) dist i
    else nearLoop r g b rest (i + 1) best ret

/-- `nearestrgb3` (`imageop.rs` line 154). -/
def nearestrgb3 (palette : List Pixel) (r g b : ℕ) : ℕ :=
  nearLoop r g b palette 0 0 0

/-- Rust `i32::clamp(lo, hi)`. -/
def iclamp (v lo hi : ℤ) : ℤ :=
  if v < lo then lo else if v > hi then hi else v

/-- Rust `as u8` on an `i32`: two's-complement truncation. -/
def intToByte (v : ℤ) : Byte :=
  ⟨(v % 256).toNat, by omega⟩

/-- Rust `>> 4` on an `i32`: arithmetic shift, i.e. division by 16
rounded toward negative infinity. -/
def asr4 (v : ℤ) : ℤ :=
  Int.fdiv v 16

/-- Pointwise update of the flat error accumulator. -/
def upd (f : ℕ → ℤ) (k : ℕ) (v : ℤ) : ℕ → ℤ :=
  fun n => if n = k then v else f n

/-- The first loop of a `floyd_steinberg_dither` row
(`imageop.rs` lines 186–195): move the carried next-row error plus the
pixel values into the current-row segments and zero the next-row
segments. -/
def fsLoadRow (w j : ℕ) (st : (ℕ → ℤ) × Image) : (ℕ → ℤ) × Image :=
  let img := st.2
  let e := (List.range w).foldl (fun e i =>
    let cr := img.pix i j
    let e := upd e i (e (w + i) + (cr.1.val : ℤ))
    let e := upd e (2*w + i) (e (3*w + i) + (cr.2.1.val : ℤ))
    let e := upd e (4*w + i) (e (5*w + i) + (cr.2.2.val : ℤ))
    let e := upd e (w + i) 0
    let e := upd e (3*w + i) 0
    upd e (5*w + i) 0) st.1
  (e, img)

/-- The quantize-pixel-zero block of a `floyd_steinberg_dither` row,
which appears verbatim both before and after the inner loop
(`imageop.rs` lines 196–205 and 237–246): clamp the accumulators at
index 0, find the nearest palette color and write it at `(0, j)`.
(`palette[idx]` panics on an empty palette in the source; the `getD`
default is unreachable for the nonempty palettes considered here.) -/
def fsQuantZero (palette : List Pixel) (w j : ℕ) (st : (ℕ → ℤ) × Image) :
    (ℕ → ℤ) × Image :=
  let e := st.1
  let e := upd e 0 (iclamp (e 0) 0 255)
  let e := upd e (2*w) (iclamp (e (2*w)) 0 255)
  let e := upd e (4*w) (iclamp (e (4*w)) 0 255)
  let idx := nearestrgb3 palette (intToByte (e 0)).val
    (intToByte (e (2*w))).val (intToByte (e (4*w))).val
  (e, st.2.put 0 j (palette.getD idx (0, 0, 0)))

/-- The body of the inner loop of a `floyd_steinberg_dither` row
(`imageop.rs` lines 206–236): clamp, quantize and write pixel
`(i, j)`, then diffuse the residual with the 7/16, 3/16, 5/16, 1/16
shift-based weights.  The next-row index `rerr2 + i - 1` is the
source's `usize` expression: at `i = 0` it lands on the last entry of
the current row's segment, as in the Rust code. -/
def fsInnerStep (palette : List Pixel) (w j : ℕ) (st : (ℕ → ℤ) × Image)
    (i : ℕ) : (ℕ → ℤ) × Image :=
  let e := st.1
  let e := upd e i (iclamp (e i) 0 255)
  let e := upd e (2*w + i) (iclamp (e (2*w + i)) 0 255)
  let e := upd e (4*w + i) (iclamp (e (4*w + i)) 0 255)
  let idx := nearestrgb3 palette (intToByte (e i)).val
    (intToByte (e (2*w + i))).val (intToByte (e (4*w + i))).val
  let pc := palette.getD idx (0, 0, 0)
  let im := st.2.put i j pc
  let rerr := e i - (pc.1.val : ℤ)
  let gerr := e (2*w + i) - (pc.2.1.val : ℤ)
  let berr := e (4*w + i) - (pc.2.2.val : ℤ)
  let e := upd e (i + 1) (e (i + 1) + asr4 (rerr * 7))
  let e := upd e (w + i - 1) (e (w + i - 1) + asr4 (rerr * 3))
  let e := upd e (w + i) (e (w + i) + asr4 (rerr * 5))
  let e := upd e (w + i + 1) (e (w + i + 1) + asr4 rerr)
  let e := upd e (2*w + i + 1) (e (2*w + i + 1) + asr4 (gerr * 7))
  let e := upd e (3*w + i - 1) (e (3*w + i - 1) + asr4 (gerr * 3))
  let e := upd e (3*w + i) (e (3*w + i) + asr4 (gerr * 5))
  let e := upd e (3*w + i + 1) (e (3*w + i + 1) + asr4 gerr)
  let e := upd e (4*w + i + 1) (e (4*w + i + 1) + asr4 (berr * 7))
  let e := upd e (5*w + i - 1) (e (5*w + i - 1) + asr4 (berr * 3))
  let e := upd e (5*w + i) (e (5*w + i) + asr4 (berr * 5))
  let e := upd e (5*w + i + 1) (e (5*w + i + 1) + asr4 berr)
  (e, im)

/-- One row `j` of `floyd_steinberg_dither` (`imageop.rs`
lines 185–247): load, quantize pixel 0, run the inner loop over
`0..width-1`, quantize pixel 0 again. -/
def fsRow (palette : List Pixel) (w : ℕ) (st : (ℕ → ℤ) × Image)
    (j : ℕ) : (ℕ → ℤ) × Image :=
  fsQuantZero palette w j
    ((List.range (w - 1)).foldl (fsInnerStep palette w j)
      (fsQuantZero palette w j (fsLoadRow w j st)))

/-- `floyd_steinberg_dither` (`imageop.rs` line 173): error-diffusion
dither to an arbitrary palette, a no-op on a degenerate image.  The
error vector `vec![0; width * 6]` is the all-zero accumulator. -/
def floyd_steinberg_dither (image : Image) (palette : List Pixel) : Image :=
  if image.width = 0 ∨ image.height = 0 then image
  else
    ((List.range image.height).foldl (fsRow palette image.width)
      (fun _ => 0, image)).2

/-- A 2×1 test image: black at `x = 0` and `(10,10,10)` at `x = 1`. -/
def img2 : Image :=
  ⟨2, 1, fun x _ => if x = 0 then (0, 0, 0) else (10, 10, 10)⟩

/-- A two-entry palette: black and white. -/
def pal2 : List Pixel := [(0, 0, 0), (255, 255, 255)]

/-- C1 evidence: on a 2×1 image with a positive size and the nonempty
black/white palette, the last column's pixel keeps its input color
`(10,10,10)`, which is not a palette entry: the block after the inner
loop re-quantizes pixel `(0, j)` instead of pixel `(width-1, j)`, so
the last column is never written. -/
theorem floyd_last_column_not_quantized :
    (floyd_steinberg_dither img2 pal2).pix 1 0 = ((10 : Byte), 10, 10) ∧
    ((10 : Byte), (10 : Byte), (10 : Byte)) ∉ pal2 ∧
    0 < img2.width ∧ 0 < img2.height ∧ pal2 ≠ [] := by
  refine ⟨by decide, by decide, by decide, by decide, by decide⟩

/-! ### The last column is never written (general form of the C1
evidence) -/

theorem fsLoadRow_img (w j : ℕ) (st : (ℕ → ℤ) × Image) :
    (fsLoadRow w j st).2 = st.2 := rfl

theorem fsQuantZero_pix_ne (palette : List Pixel) (w j : ℕ)
    (st : (ℕ → ℤ) × Image) {a b : ℕ} (h : ¬(a = 0 ∧ b = j)) :
    ((fsQuantZero palette w j st).2).pix a b = st.2.pix a b := by
  unfold fsQuantZero
  dsimp only
  exact Image.put_pix_ne _ _ _ _ h

theorem fsInnerStep_pix_ne (palette : List Pixel) (w j : ℕ)
    (st : (ℕ → ℤ) × Image) (i : ℕ) {a b : ℕ} (h : ¬(a = i ∧ b = j)) :
    ((fsInnerStep palette w j st i).2).pix a b = st.2.pix a b := by
  unfold fsInnerStep
  dsimp only
  exact Image.put_pix_ne _ _ _ _ h

theorem foldl_fsInnerStep_pix_ne (palette : List Pixel) (w j : ℕ)
    (L : List ℕ) (st : (ℕ → ℤ) × Image) {a b : ℕ}
    (h : ∀ i ∈ L, ¬(a = i ∧ b = j)) :
    ((L.foldl (fsInnerStep palette w j) st).2).pix a b = st.2.pix a b := by
  induction L generalizing st with
  | nil => rfl
  | cons i rest ih =>
    rw [List.foldl_cons,
      ih _ (fun i2 hi2 => h i2 (List.mem_cons_of_mem _ hi2))]
    exact fsInnerStep_pix_ne palette w j st i (h i (List.mem_cons_self _ _))

theorem fsRow_pix_last_col (palette : List Pixel) (w j : ℕ)
    (st : (ℕ → ℤ) × Image) (hw : 2 ≤ w) (b : ℕ) :
    ((fsRow palette w st j).2).pix (w - 1) b = st.2.pix (w - 1) b := by
  unfold fsRow
  rw [fsQuantZero_pix_ne palette w j _ (by omega),
    foldl_fsInnerStep_pix_ne palette w j _ _
      (fun i hi => by
        have := List.mem_range.mp hi
        omega),
    fsQuantZero_pix_ne palette w j _ (by omega),
    fsLoadRow_img]

theorem foldl_fsRow_pix_last_col (palette : List Pixel) (w : ℕ)
    (L : List ℕ) (st : (ℕ → ℤ) × Image) (hw : 2 ≤ w) (b : ℕ) :
    ((L.foldl (fsRow palette w) st).2).pix (w - 1) b = st.2.pix (w - 1) b := by
  induction L generalizing st with
  | nil => rfl
  | cons j rest ih =>
    rw [List.foldl_cons, ih _, fsRow_pix_last_col palette w j st hw b]

/-- General form of the C1 evidence: on any image at least two pixels
wide, `floyd_steinberg_dither` leaves every pixel of the last column
untouched, whatever the palette. -/
theorem floyd_last_column_unchanged (img : Image) (palette : List Pixel)
    (hw : 2 ≤ img.width) (b : ℕ) :
    (floyd_steinberg_dither img palette).pix (img.width - 1) b =
      img.pix (img.width - 1) b := by
  unfold floyd_steinberg_dither
  by_cases hz : img.width = 0 ∨ img.height = 0
  · rw [if_pos hz]
  · rw [if_neg hz]
    exact foldl_fsRow_pix_last_col palette img.width _ _ hw b

/-- A degenerate 0×5 image. -/
def img0 : Image := ⟨0, 5, fun _ _ => (3, 4, 5)⟩

/-- C8: on an image with zero width or height, `imagept` returns black
at every coordinate, and both ditherers return the image unchanged. -/
theorem degenerate_image_neutral (img : Image)
    (h : img.width = 0 ∨ img.height = 0) (x y : ℚ) (ivga : Bool)
    (pal : List Pixel) :
    imagept img x y = ((0 : Byte), 0, 0) ∧
    websafedither img ivga = img ∧
    floyd_steinberg_dither img pal = img := by
  refine ⟨?_, ?_, ?_⟩
  · unfold imagept
    rw [if_pos h]
  · unfold websafedither
    have hs : scanCoords img.width img.height = [] := by
      rcases h with h | h <;>
        simp [scanCoords, h, List.flatMap]
    rw [hs]
    rfl
  · unfold floyd_steinberg_dither
    rw [if_pos h]

/-- Witness for C8: the three neutral results on a concrete 0×5
image. -/
theorem degenerate_image_neutral_witness :
    imagept img0 (7/2) (-(9/4)) = ((0 : Byte), 0, 0) ∧
    websafedither img0 true = img0 ∧
    floyd_steinberg_dither img0 pal2 = img0 :=
  degenerate_image_neutral img0 (Or.inl rfl) (7/2) (-(9/4)) true pal2

/-! ## Bordered checkerboard boxes (`imageop.rs`, lines 8–33 and
656–706) -/

/-- `_min32` (`imageop.rs` line 8): minimum of an `i32` and a `u32` as
an `i32` (a negative first argument is returned as is). -/
def min32 (a : ℤ) (b : ℕ) : ℤ :=
  if a < 0 then a else min a (b : ℤ)

/-- `_mod32` (`imageop.rs` line 20): the non-negative residue of an
`i32` modulo a (positive) `u32`. -/
def mod32 (a : ℤ) (b : ℕ) : ℕ :=
  if a < 0 then
    let r := a.natAbs % b
    if r ≠ 0 then b - r else r
  else a.toNat % b

/-- The `i32` values traversed by a Rust `for v in lo..hi` loop. -/
def intRange (lo hi : ℤ) : List ℤ :=
  (List.range (hi - lo).toNat).map fun (k : ℕ) => lo + (k : ℤ)

/-- The body of `borderedbox`'s inner loop (`imageop.rs`
lines 688–704): write the border color on the rectangle's edge rows
and columns when a border is given, otherwise the `(x + y)`-parity
checkerboard color, at the wrapped position. -/
def boxStep (wdt hgt : ℕ) (border : Option Pixel) (c1 c2 : Pixel)
    (x0 y0 x1 y1 y : ℤ) (im2 : Image) (x : ℤ) : Image :=
  let ypp := mod32 y hgt
  let xp := mod32 x wdt
  match border with
  | some bc =>
    if y = y0 ∨ y = y1 - 1 ∨ x = x0 ∨ x = x1 - 1 then im2.put xp ypp bc
    else if ypp % 2 = xp % 2 then im2.put xp ypp c1
    else im2.put xp ypp c2
  | none =>
    if ypp % 2 = xp % 2 then im2.put xp ypp c1
    else im2.put xp ypp c2

/-- The nested drawing loops of `borderedbox` (`imageop.rs`
lines 686–705) over `y0..y1` and `x0..x1`. -/
def drawLoop (img : Image) (border : Option Pixel) (c1 c2 : Pixel)
    (x0 y0 x1 y1 : ℤ) : Image :=
  (intRange y0 y1).foldl (fun im y =>
    (intRange x0 x1).foldl
      (boxStep img.width img.height border c1 c2 x0 y0 x1 y1 y) im) img

/-- `borderedbox` (`imageop.rs` line 656).  The Rust `panic!()` on an
inverted rectangle is `none`; every non-panicking path is `some`. -/
def borderedbox (img : Image) (border : Option Pixel) (c1 c2 : Pixel)
    (rect : ℤ × ℤ × ℤ × ℤ) (wraparound : Bool) : Option Image :=
  let x0 := rect.1
  let y0 := rect.2.1
  let x1 := rect.2.2.1
  let y1 := rect.2.2.2
  if x1 < x0 ∨ y1 < y0 then none
  else if img.width = 0 ∨ img.height = 0 then some img
  else if x0 = x1 ∨ y0 = y1 then some img
  else if wraparound = false then
    let x0c := max x0 0
    let y0c := max y0 0
    let x1c := min32 x1 img.width
    let y1c := min32 y1 img.height
    if x0c ≥ x1c ∨ y0c ≥ y1c then some img
    else some (drawLoop img border c1 c2 x0c y0c x1c y1c)
  else some (drawLoop img border c1 c2 x0 y0 x1 y1)

/-! ### Lemmas about `borderedbox` -/

theorem mem_intRange {lo hi k : ℤ} (h : k ∈ intRange lo hi) :
    lo ≤ k ∧ k < hi := by
  simp only [intRange, List.mem_map, List.mem_range] at h
  obtain ⟨n, hn, rfl⟩ := h
  omega

theorem mod32_coe_eq_self {a : ℤ} {b : ℕ} (h0 : 0 ≤ a) (hb : a < (b : ℤ)) :
    ((mod32 a b : ℕ) : ℤ) = a := by
  unfold mod32
  rw [if_neg (by omega)]
  have hlt : a.toNat < b := by omega
  rw [Nat.mod_eq_of_lt hlt]
  omega

theorem boxStep_pix_ne (wdt hgt : ℕ) (border : Option Pixel)
    (c1 c2 : Pixel) (x0 y0 x1 y1 y : ℤ) (im2 : Image) (x : ℤ) {a b : ℕ}
    (h : ¬(a = mod32 x wdt ∧ b = mod32 y hgt)) :
    (boxStep wdt hgt border c1 c2 x0 y0 x1 y1 y im2 x).pix a b =
      im2.pix a b := by
  rcases border with _ | bc <;>
    unfold boxStep <;>
    dsimp only <;>
    split_ifs <;>
    exact Image.put_pix_ne _ _ _ _ h

theorem foldl_boxStep_inner (wdt hgt : ℕ) (border : Option Pixel)
    (c1 c2 : Pixel) (x0 y0 x1 y1 y : ℤ) (L : List ℤ) (im : Image)
    {a b : ℕ} (h : ∀ x ∈ L, ¬(a = mod32 x wdt ∧ b = mod32 y hgt)) :
    (L.foldl (boxStep wdt hgt border c1 c2 x0 y0 x1 y1 y) im).pix a b =
      im.pix a b := by
  induction L generalizing im with
  | nil => rfl
  | cons xx rest ih =>
    rw [List.foldl_cons,
      ih _ (fun x hx => h x (List.mem_cons_of_mem _ hx))]
    exact boxStep_pix_ne wdt hgt border c1 c2 x0 y0 x1 y1 y im xx
      (h xx (List.mem_cons_self _ _))

theorem foldl_boxStep_outer (wdt hgt : ℕ) (border : Option Pixel)
    (c1 c2 : Pixel) (x0 y0 x1 y1 : ℤ) (Ly : List ℤ) (im : Image)
    {a b : ℕ}
    (h : ∀ y ∈ Ly, ∀ x ∈ intRange x0 x1,
      ¬(a = mod32 x wdt ∧ b = mod32 y hgt)) :
    (Ly.foldl (fun im2 y =>
      (intRange x0 x1).foldl
        (boxStep wdt hgt border c1 c2 x0 y0 x1 y1 y) im2) im).pix a b =
      im.pix a b := by
  induction Ly generalizing im with
  | nil => rfl
  | cons yy rest ih =>
    rw [List.foldl_cons,
      ih _ (fun y hy => h y (List.mem_cons_of_mem _ hy))]
    exact foldl_boxStep_inner wdt hgt border c1 c2 x0 y0 x1 y1 yy
      (intRange x0 x1) im (h yy (List.mem_cons_self _ _))

theorem drawLoop_pix_outside (img : Image) (border : Option Pixel)
    (c1 c2 : Pixel) (x0 y0 x1 y1 : ℤ) (hx0 : 0 ≤ x0)
    (hx1 : x1 ≤ (img.width : ℤ)) (hy0 : 0 ≤ y0)
    (hy1 : y1 ≤ (img.height : ℤ)) (a b : ℕ)
    (hout : ¬(x0 ≤ (a : ℤ) ∧ (a : ℤ) < x1 ∧ y0 ≤ (b : ℤ) ∧ (b : ℤ) < y1)) :
    (drawLoop img border c1 c2 x0 y0 x1 y1).pix a b = img.pix a b := by
  unfold drawLoop
  apply foldl_boxStep_outer
  intro y hy x hx hc
  obtain ⟨hcx, hcy⟩ := hc
  obtain ⟨hyl, hyu⟩ := mem_intRange hy
  obtain ⟨hxl, hxu⟩ := mem_intRange hx
  have hxe : ((mod32 x img.width : ℕ) : ℤ) = x :=
    mod32_coe_eq_self (by omega) (by omega)
  have hye : ((mod32 y img.height : ℕ) : ℤ) = y :=
    mod32_coe_eq_self (by omega) (by omega)
  apply hout
  subst hcx hcy
  refine ⟨by omega, by omega, by omega, by omega⟩

/-! ### Claim theorem about `borderedbox` -/

/-- C7: `borderedbox` fails (panics) exactly when the rectangle is
inverted (`x1 < x0` or `y1 < y0`); a valid degenerate rectangle
(`x0 = x1` or `y0 = y1`) is a no-op; with `wraparound = false` a valid
rectangle lying entirely outside the image bounds is a no-op, and in
general only pixels inside the rectangle clamped to the image bounds
are modified. -/
theorem borderedbox_contract (img : Image) (border : Option Pixel)
    (c1 c2 : Pixel) (x0 y0 x1 y1 : ℤ) (wrap : Bool) :
    (borderedbox img border c1 c2 (x0, y0, x1, y1) wrap = none ↔
      x1 < x0 ∨ y1 < y0) ∧
    (¬(x1 < x0 ∨ y1 < y0) → (x0 = x1 ∨ y0 = y1) →
      borderedbox img border c1 c2 (x0, y0, x1, y1) wrap = some img) ∧
    (¬(x1 < x0 ∨ y1 < y0) →
      (x1 ≤ 0 ∨ (img.width : ℤ) ≤ x0 ∨ y1 ≤ 0 ∨ (img.height : ℤ) ≤ y0) →
      borderedbox img border c1 c2 (x0, y0, x1, y1) false = some img) ∧
    (∀ res, borderedbox img border c1 c2 (x0, y0, x1, y1) false = some res →
      ∀ a b : ℕ,
        ¬(max x0 0 ≤ (a : ℤ) ∧ (a : ℤ) < min32 x1 img.width ∧
          max y0 0 ≤ (b : ℤ) ∧ (b : ℤ) < min32 y1 img.height) →
        res.pix a b = img.pix a b) := by
  refine ⟨?_, ?_, ?_, ?_⟩
  · unfold borderedbox
    dsimp only
    by_cases hc : x1 < x0 ∨ y1 < y0
    · rw [if_pos hc]
      simp [hc]
    · rw [if_neg hc]
      split_ifs <;> simp [hc]
  · intro hv hdeg
    unfold borderedbox
    dsimp only
    rw [if_neg hv]
    by_cases hz : img.width = 0 ∨ img.height = 0
    · rw [if_pos hz]
    · rw [if_neg hz, if_pos hdeg]
  · intro hv hout
    unfold borderedbox
    dsimp only
    rw [if_neg hv]
    by_cases hz : img.width = 0 ∨ img.height = 0
    · rw [if_pos hz]
    · rw [if_neg hz]
      by_cases hdeg : x0 = x1 ∨ y0 = y1
      · rw [if_pos hdeg]
      · rw [if_neg hdeg, if_pos rfl, if_pos ?_]
        unfold min32
        split_ifs <;> omega
  · intro res hres a b hout
    unfold borderedbox at hres
    dsimp only at hres
    by_cases hv : x1 < x0 ∨ y1 < y0
    · rw [if_pos hv] at hres
      exact absurd hres (by simp)
    rw [if_neg hv] at hres
    by_cases hz : img.width = 0 ∨ img.height = 0
    · rw [if_pos hz] at hres
      obtain rfl := Option.some.inj hres
      rfl
    rw [if_neg hz] at hres
    by_cases hdeg : x0 = x1 ∨ y0 = y1
    · rw [if_pos hdeg] at hres
      obtain rfl := Option.some.inj hres
      rfl
    rw [if_neg hdeg, if_pos rfl] at hres
    by_cases hempty : max x0 0 ≥ min32 x1 img.width ∨
        max y0 0 ≥ min32 y1 img.height
    · rw [if_pos hempty] at hres
      obtain rfl := Option.some.inj hres
      rfl
    · rw [if_neg hempty] at hres
      obtain rfl := Option.some.inj hres
      refine drawLoop_pix_outside img border c1 c2 _ _ _ _
        (le_max_right x0 0) ?_ (le_max_right y0 0) ?_ a b hout
      · unfold min32
        split_ifs <;> omega
      · unfold min32
        split_ifs <;> omega

/-- A 4×4 test image with every pixel `(1, 2, 3)`. -/
def imgW : Image := ⟨4, 4, fun _ _ => (1, 2, 3)⟩

/-- Witness for C7: the panic case, the degenerate no-op, the
fully-outside no-op, and the untouched-pixel fact at concrete
inputs. -/
theorem borderedbox_contract_witness :
    borderedbox imgW none (9, 9, 9) (7, 7, 7) (3, 0, 1, 5) true = none ∧
    borderedbox imgW none (9, 9, 9) (7, 7, 7) (2, 1, 2, 3) false = some imgW ∧
    borderedbox imgW none (9, 9, 9) (7, 7, 7) (9, 1, 10, 3) false = some imgW ∧
    imgW.pix 3 3 = imgW.pix 3 3 := by
  have h2 := (borderedbox_contract imgW none (9, 9, 9) (7, 7, 7)
    2 1 2 3 false).2.1 (by decide) (Or.inl rfl)
  refine ⟨?_, h2, ?_, ?_⟩
  · exact (borderedbox_contract imgW none (9, 9, 9) (7, 7, 7)
      3 0 1 5 true).1.mpr (Or.inl (by decide))
  · exact (borderedbox_contract imgW none (9, 9, 9) (7, 7, 7)
      9 1 10 3 false).2.2.1 (by decide) (Or.inr (Or.inl (by decide)))
  · exact (borderedbox_contract imgW none (9, 9, 9) (7, 7, 7)
      2 1 2 3 false).2.2.2 imgW h2 3 3 (by decide)

/-! ## Random checkerboard boxes (`randomwp.rs`, lines 7–33)

`randomboxes` draws 30 boxes whose geometry comes from four uniform
samplers.  The samplers' inclusive supports are embedded exactly as the
source builds them (`randomwp.rs` lines 8–11): note that `ux1` (added
to `x0` to form `x1`) is built from `image.height()`, and `uy0` (the
`y0` position) from `image.width()`.  A draw is parameterized by the
four sampled values. -/

/-- Support of `ux0 = Uniform::new_inclusive(0, image.width() - 1)`. -/
def ux0Range (w h : ℕ) : ℕ × ℕ := (0, w - 1)

/-- Support of
`uy0 = Uniform::new_inclusive(3, max(3, image.width() * 3 / 4))`. -/
def uy0Range (w h : ℕ) : ℕ × ℕ := (3, max 3 (w * 3 / 4))

/-- Support of `ux1 = Uniform::new_inclusive(0, image.height() - 1)`. -/
def ux1Range (w h : ℕ) : ℕ × ℕ := (0, h - 1)

/-- Support of
`uy1 = Uniform::new_inclusive(3, max(3, image.height() * 3 / 4))`. -/
def uy1Range (w h : ℕ) : ℕ × ℕ := (3, max 3 (h * 3 / 4))

/-- Membership in an inclusive sampler support. -/
def inRange (r : ℕ × ℕ) (n : ℕ) : Prop := r.1 ≤ n ∧ n ≤ r.2

instance (r : ℕ × ℕ) (n : ℕ) : Decidable (inRange r n) := by
  unfold inRange; infer_instance

/-- The rectangle of one `randomboxes` iteration (`randomwp.rs`
lines 14–17 and 28): `x0 = ux0 sample`, `x1 = x0 + ux1 sample`,
`y0 = uy0 sample`, `y1 = y0 + uy1 sample`, cast `as i32`. -/
def randomboxRect (x0s ux1s uy0s uy1s : ℕ) : ℤ × ℤ × ℤ × ℤ :=
  ((x0s : ℤ), (uy0s : ℤ), ((x0s + ux1s : ℕ) : ℤ), ((uy0s + uy1s : ℕ) : ℤ))

/-- One `randomboxes` draw (`randomwp.rs` lines 23–30): a black-bordered
checkerboard box with both fill colors equal, wraparound enabled. -/
def randomboxDraw (img : Image) (c0 : Pixel) (x0s ux1s uy0s uy1s : ℕ) :
    Option Image :=
  borderedbox img (some (0, 0, 0)) c0 c0 (randomboxRect x0s ux1s uy0s uy1s) true

/-- C9 evidence: on a 128×128 image, the sample tuple
`(5, 0, 10, 7)` lies in all four samplers' supports yet yields a box
with horizontal extent `x1 - x0 = 0 < 3`; and on a 128×256 image the
`ux1` sampler can return 255, yielding a horizontal extent above
`max(3, 128·3/4) = 96`: the horizontal extent is drawn from
`[0, height-1]`, not `[3, max(3, 3·width/4)]`. -/
theorem randomboxes_extent_bug :
    inRange (ux0Range 128 128) 5 ∧ inRange (ux1Range 128 128) 0 ∧
    inRange (uy0Range 128 128) 10 ∧ inRange (uy1Range 128 128) 7 ∧
    (randomboxRect 5 0 10 7).2.2.1 - (randomboxRect 5 0 10 7).1 = 0 ∧
    ¬(3 ≤ (randomboxRect 5 0 10 7).2.2.1 - (randomboxRect 5 0 10 7).1) ∧
    inRange (ux1Range 128 256) 255 ∧
    (randomboxRect 5 255 10 7).2.2.1 - (randomboxRect 5 255 10 7).1 = 255 ∧
    ¬((randomboxRect 5 255 10 7).2.2.1 - (randomboxRect 5 255 10 7).1 ≤
      ((max 3 (128 * 3 / 4) : ℕ) : ℤ)) := by
  refine ⟨by decide, by decide, by decide, by decide, by decide,
    by decide, by decide, by decide, by decide⟩

end ClassicWallpaper
